import Mathlib

/-!
# Verification of the mona-date English date parser

Shallow embedding of `src/src/index.js` (the date grammar) over a model of
the parsing-engine primitives (spec section 4.1; the `@mona` packages are
external to `src/`) and of the calendar collaborator (spec section 6; the
`moment` library is declared out of scope by the spec).

A parser consumes a list of characters and either fails or returns a value
together with the unconsumed suffix, which models the (stream, offset)
cursor of the spec: backtracking simply reuses the original suffix.
-/

/-- Parse Result model from the spec: Success(value, next offset) or
Failure, encoded as `Option (value, remaining input)`. -/
abbrev Parser (α : Type) : Type := List Char → Option (α × List Char)

/-- A calendar day (always at midnight): zero-based month, 1-based day. -/
structure SDate where
  year : Int
  month : Nat
  day : Nat
  deriving Repr, DecidableEq

/-- The ambient current moment: a calendar day plus a time of day
(seconds after midnight), so that start-of-day truncation is visible. -/
structure Moment where
  date : SDate
  secs : Nat
  deriving Repr, DecidableEq

/-- Modelled from the spec: the calendar collaborator truncates a moment
to midnight (`start-of-day`). -/
def startOfDay (nw : Moment) : SDate := nw.date

/-- Modelled from the spec: Gregorian leap-year rule used by the calendar
collaborator for validity checking. -/
def isLeap (y : Int) : Bool :=
  (y % 4 == 0 && y % 100 != 0) || y % 400 == 0

/-- Modelled from the spec: number of days of a zero-based month in a given
year, per the Gregorian calendar. -/
def daysInMonth (y : Int) : Nat → Nat
  | 0 => 31
  | 1 => if isLeap y then 29 else 28
  | 2 => 31
  | 3 => 30
  | 4 => 31
  | 5 => 30
  | 6 => 31
  | 7 => 31
  | 8 => 30
  | 9 => 31
  | 10 => 30
  | 11 => 31
  | _ => 0

/-- Modelled from the spec: the calendar collaborator accepts a
(year, month, day) triple only when it denotes a real Gregorian day. -/
def dateValid (y : Int) (m d : Nat) : Bool :=
  decide (m ≤ 11) && decide (1 ≤ d) && decide (d ≤ daysInMonth y m)

/-- Modelled from the spec: the previous calendar day, borrowing across
month and year boundaries. -/
def prevDay : SDate → SDate
  | ⟨y, m, d⟩ =>
    if 2 ≤ d then ⟨y, m, d - 1⟩
    else if 1 ≤ m then ⟨y, m - 1, daysInMonth y (m - 1)⟩
    else ⟨y - 1, 11, 31⟩

/-- Modelled from the spec: calendar-correct subtraction of `n` days. -/
def subDays : Nat → SDate → SDate
  | 0, dt => dt
  | n + 1, dt => subDays n (prevDay dt)

/-- Modelled from the spec: calendar-correct subtraction of `n` months,
clamping the day to the length of the target month. -/
def subMonths (n : Nat) (dt : SDate) : SDate :=
  let t : Int := 12 * dt.year + dt.month - n
  let y : Int := t.fdiv 12
  let m : Nat := (t.emod 12).toNat
  ⟨y, m, min dt.day (daysInMonth y m)⟩

/-- Modelled from the spec: calendar-correct subtraction of `n` years,
clamping the day (Feb 29 falls back to Feb 28). -/
def subYears (n : Nat) (dt : SDate) : SDate :=
  let y : Int := dt.year - n
  ⟨y, dt.month, min dt.day (daysInMonth y dt.month)⟩

/-- Modelled from the spec: `subtract(date, amount, unit)` of the calendar
collaborator, dispatching on the unit word produced by the grammar. -/
def subtractUnit (unit : List Char) (n : Nat) (dt : SDate) : SDate :=
  if unit = "day".data then subDays n dt
  else if unit = "week".data then subDays (7 * n) dt
  else if unit = "month".data then subMonths n dt
  else if unit = "year".data then subYears n dt
  else dt

/-- Digit character test (ASCII 0-9). -/
def isDigitC (c : Char) : Bool := 48 ≤ c.toNat && c.toNat ≤ 57

/-- Whitespace character test. -/
def isSpaceC (c : Char) : Bool := c = ' ' || c = '\t' || c = '\n' || c = '\r'

/-- Decimal value of a digit string (as consumed by the integer parser). -/
def digitsVal (ds : List Char) : Nat :=
  ds.foldl (fun a c => 10 * a + (c.toNat - 48)) 0

/-- ASCII lowercasing of one character. -/
def lowerChar (c : Char) : Char :=
  if 65 ≤ c.toNat && c.toNat ≤ 90 then Char.ofNat (c.toNat + 32) else c

/-- ASCII lowercasing of a token. -/
def lowerAll (tok : List Char) : List Char := tok.map lowerChar

/-- Modelled from the spec: literal matcher of the parsing engine.
Succeeds consuming exactly the matching prefix, case sensitively. -/
def matchLit : List Char → List Char → Option (List Char)
  | [], rest => some rest
  | _, [] => none
  | c :: cs, x :: xs => if c = x then matchLit cs xs else none

/-- Modelled from the spec: `literal(text)`; the value is the matched text
(mirrors the mona `string` combinator). -/
def mString (s : String) : Parser (List Char) := fun input =>
  (matchLit s.data input).map fun rest => (s.data, rest)

/-- Modelled from the spec: a parser that consumes nothing and returns a
fixed value (mona `value`). -/
def mValue {α : Type} (a : α) : Parser α := fun input => some (a, input)

/-- Modelled from the spec: ordered alternation with full backtracking;
the second alternative is tried from the same original position. -/
def mOr {α : Type} (p q : Parser α) : Parser α := fun input =>
  match p input with
  | some r => some r
  | none => q input

/-- Modelled from the spec: sequencing that returns the second value
(mona `and`, which yields its last argument). -/
def mAnd {α β : Type} (p : Parser α) (q : Parser β) : Parser β := fun input =>
  (p input).bind fun (_, r) => q r

/-- Modelled from the spec: sequencing that returns the first value
(mona `followedBy`). -/
def mFollowedBy {α β : Type} (p : Parser α) (q : Parser β) : Parser α := fun input =>
  (p input).bind fun (a, r) => (q r).map fun (_, r2) => (a, r2)

/-- Modelled from the spec: `optional(p)` never fails; on failure it
returns an absent value without consuming (mona `maybe`). -/
def mMaybe {α : Type} (p : Parser α) : Parser (Option α) := fun input =>
  match p input with
  | some (a, r) => some (some a, r)
  | none => some (none, input)

/-- Modelled from the spec: `end-of-input()` succeeds only when the whole
stream has been consumed. -/
def mEof : Parser Unit := fun input =>
  if input = [] then some ((), input) else none

/-- Modelled from the spec: one or more whitespace characters
(mona `spaces`). -/
def mSpaces : Parser Unit := fun input =>
  match input with
  | [] => none
  | c :: rest =>
    if isSpaceC c then some ((), rest.dropWhile isSpaceC) else none

/-- Modelled from the spec: `text(noneOf(' '))`, the maximal (possibly
empty) prefix of characters other than a space. -/
def nonSpaceToken : Parser (List Char) := fun input =>
  some (input.takeWhile (fun c => !(c = ' ')),
    input.drop (input.takeWhile (fun c => !(c = ' '))).length)

/-- Modelled from the spec: the integer parser of the engine
(mona `integer`): one or more decimal digits. -/
def integer : Parser Nat := fun input =>
  if input.takeWhile isDigitC = [] then none
  else some (digitsVal (input.takeWhile isDigitC),
    input.drop (input.takeWhile isDigitC).length)

/-- Modelled from the spec: table of abbreviated (3-letter) and full
English month names used by the calendar collaborator. -/
def monthTable : List (String × Nat) :=
  [("jan", 0), ("january", 0), ("feb", 1), ("february", 1),
   ("mar", 2), ("march", 2), ("apr", 3), ("april", 3),
   ("may", 4), ("jun", 5), ("june", 5), ("jul", 6), ("july", 6),
   ("aug", 7), ("august", 7), ("sep", 8), ("september", 8),
   ("oct", 9), ("october", 9), ("nov", 10), ("november", 10),
   ("dec", 11), ("december", 11)]

/-- First-match lookup in a token table. -/
def tableFind : List (String × Nat) → List Char → Option Nat
  | [], _ => none
  | (s, m) :: rest, tok => if tok = s.data then some m else tableFind rest tok

/-- Modelled from the spec: `text-to-month(text, format)` of the calendar
collaborator: case-insensitive lookup of abbreviated or full English month
names; `no-match` on anything else. -/
def textToMonth (tok : List Char) : Option Nat :=
  tableFind monthTable (lowerAll tok)

/-- Modelled from the spec: `year-4digit()` reporting: the collaborator
under the 4-digit year format accepts exactly a 4-digit numeric token. -/
def textToYear4 (tok : List Char) : Option Nat :=
  if tok.length = 4 && tok.all isDigitC then some (digitsVal tok) else none

/-- From `momentParser` in src/src/index.js: reads the text up to the next
space and feeds it to a text-to-value lookup of the calendar collaborator,
failing when the lookup reports no match. -/
def momentParser (toVal : List Char → Option Nat) : Parser Nat := fun input =>
  (nonSpaceToken input).bind fun (tok, rest) =>
    match toVal tok with
    | some v => some (v, rest)
    | none => none

/-- From `month` in src/src/index.js: a text month in short or long form. -/
def month : Parser Nat := momentParser textToMonth

/-- From `year` in src/src/index.js: a year in long (4-digit) form. -/
def year : Parser Nat := momentParser textToYear4

/-- From `day` in src/src/index.js: an integer between 1 and 31. -/
def day : Parser Nat := fun input =>
  (integer input).bind fun (dayNum, rest) =>
    if 1 ≤ dayNum && dayNum ≤ 31 then some (dayNum, rest) else none

/-- From `now` in src/src/index.js: the strings `today` and `now` parse to
the current date truncated to midnight. -/
def nowP (nw : Moment) : Parser SDate :=
  mAnd (mOr (mString "today") (mString "now")) (mValue (startOfDay nw))

/-- From `yesterday` in src/src/index.js: the string `yesterday` parses to
the day before the current date, truncated to midnight. -/
def yesterdayP (nw : Moment) : Parser SDate :=
  mAnd (mString "yesterday") (mValue (subDays 1 (startOfDay nw)))

/-- From `interval` in src/src/index.js: an integer, or the literal `the`
as an alias for 1. -/
def interval : Parser Nat :=
  mOr integer (mAnd (mString "the") (mValue 1))

/-- From `intervalUnit` in src/src/index.js: one of `day`, `week`,
`month`, `year`, with an optional discarded plural `s`. -/
def intervalUnit : Parser (List Char) := fun input =>
  (mOr (mString "day")
    (mOr (mString "week") (mOr (mString "month") (mString "year"))) input).bind
    fun (unit, r1) =>
      (mMaybe (mString "s") r1).map fun (_, r2) => (unit, r2)

/-- From `referenceDate` in src/src/index.js: `ago` is an alias for the
current date at midnight; otherwise one of `from`, `before`, `until`
(no semantic distinction) followed by spaces and a recursive full date
expression `eng`. -/
def referenceDate (nw : Moment) (eng : Parser SDate) : Parser SDate :=
  mOr (mAnd (mString "ago") (mValue (startOfDay nw)))
      (mAnd (mOr (mString "from") (mOr (mString "before") (mString "until")))
            (mAnd mSpaces eng))

/-- From `relativeDate` in src/src/index.js: optional interval (default 1),
optional spaces, interval unit, spaces, reference date; the result is the
reference shifted into the past by the interval. -/
def relativeDate (nw : Moment) (eng : Parser SDate) : Parser SDate := fun input =>
  (mOr interval (mValue 1) input).bind fun (iv, r1) =>
  (mMaybe mSpaces r1).bind fun (_, r2) =>
  (intervalUnit r2).bind fun (unit, r3) =>
  (mSpaces r3).bind fun (_, r4) =>
  (referenceDate nw eng r4).map fun (ref, r5) =>
    (subtractUnit unit iv ref, r5)

/-- From `monthAndYear` in src/src/index.js: month plus 4-digit year, with
the day set to 1; fails when the assembled triple is not a valid date. -/
def monthAndYear : Parser SDate := fun input =>
  (month input).bind fun (m, r1) =>
  (mSpaces r1).bind fun (_, r2) =>
  (year r2).bind fun (y, r3) =>
    if dateValid y m 1 then some (⟨y, m, 1⟩, r3) else none

/-- From `monthAndDay` in src/src/index.js: month plus day, using the
current year; fails when the assembled triple is not a valid date. -/
def monthAndDay (nw : Moment) : Parser SDate := fun input =>
  (month input).bind fun (m, r1) =>
  (mSpaces r1).bind fun (_, r2) =>
  (day r2).bind fun (d, r3) =>
    if dateValid nw.date.year m d then some (⟨nw.date.year, m, d⟩, r3) else none

/-- From `fullDate` in src/src/index.js: month, day and 4-digit year with
an optional comma between day and year; fails when the triple is invalid. -/
def fullDate : Parser SDate := fun input =>
  (month input).bind fun (m, r1) =>
  (mSpaces r1).bind fun (_, r2) =>
  (day r2).bind fun (d, r3) =>
  (mMaybe (mString ",") r3).bind fun (_, r4) =>
  (mMaybe mSpaces r4).bind fun (_, r5) =>
  (year r5).bind fun (y, r6) =>
    if dateValid y m d then some (⟨y, m, d⟩, r6) else none

/-- From `localeDate` in src/src/index.js: the most specific absolute form
first. -/
def localeDate (nw : Moment) : Parser SDate :=
  mOr fullDate (mOr (monthAndDay nw) monthAndYear)

/-- The top-level alternation of `englishDateParser` in src/src/index.js:
optional leading spaces, then the first matching alternative in priority
order, then optional trailing spaces and end of input; `eng` is the
recursive occurrence used by the reference clause. -/
def englishCore (nw : Moment) (eng : Parser SDate) : Parser SDate :=
  mFollowedBy
    (mFollowedBy
      (mAnd (mMaybe mSpaces)
        (mOr (localeDate nw)
          (mOr (relativeDate nw eng)
            (mOr (nowP nw) (yesterdayP nw)))))
      (mMaybe mSpaces))
    mEof

/-- From `englishDateParser` in src/src/index.js, with a fuel argument
bounding the recursion depth of the reference clause (each recursive call
consumes at least a preposition and a space, so any fuel larger than the
input length behaves like the unbounded original). -/
def englishDateParser (nw : Moment) : Nat → Parser SDate
  | 0 => fun _ => none
  | n + 1 => englishCore nw (englishDateParser nw n)

/-- From `parseDate` in src/src/index.js: run the grammar on the whole
string; `nw` models the ambient current moment read by the grammar. -/
def parseDate (s : String) (nw : Moment) : Option SDate :=
  (englishDateParser nw (s.data.length + 1) s.data).map fun r => r.1

/-- A sample current moment used for concrete evaluations. -/
def nw0 : Moment := ⟨⟨2013, 7, 20⟩, 3600⟩

/-! ## Basic facts about characters and literal matching -/

theorem lowerChar_fix_of_digit (c : Char) (h : isDigitC c = true) :
    lowerChar c = c := by
  unfold lowerChar
  unfold isDigitC at h
  simp only [Bool.and_eq_true, decide_eq_true_eq] at h
  simp only [ite_eq_right_iff]
  intro hc
  simp only [Bool.and_eq_true, decide_eq_true_eq] at hc
  omega

theorem lowerChar_fix_of_space (c : Char) (h : isSpaceC c = true) :
    lowerChar c = c := by
  unfold isSpaceC at h
  simp only [Bool.or_eq_true, decide_eq_true_eq] at h
  rcases h with ((h | h) | h) | h <;> subst h <;> decide

theorem digit_ne_of_not (c k : Char) (h : isDigitC c = true)
    (hk : isDigitC k = false) : ¬(c = k) := by
  intro he
  subst he
  rw [h] at hk
  cases hk

theorem matchLit_append (pre rest : List Char) :
    matchLit pre (pre ++ rest) = some rest := by
  induction pre with
  | nil => simp [matchLit]
  | cons c cs ih => simp [matchLit, ih]

theorem matchLit_eq_some (w : List Char) :
    ∀ input r, matchLit w input = some r ↔ input = w ++ r := by
  induction w with
  | nil =>
    intro input r
    simp [matchLit]
  | cons c cs ih =>
    intro input r
    cases input with
    | nil =>
      simp only [matchLit, List.cons_append]
      constructor
      · intro h
        cases h
      · intro h
        cases h
    | cons x xs =>
      by_cases h : c = x
      · subst h
        simp [matchLit, ih]
      · simp only [matchLit, if_neg h, List.cons_append, List.cons.injEq]
        constructor
        · intro hc
          cases hc
        · intro hc
          exact absurd hc.1.symm h

theorem takeWhile_append_stop {p : Char → Bool} (xs : List Char) (y : Char)
    (ys : List Char) (h : ∀ c ∈ xs, p c = true) (hy : p y = false) :
    (xs ++ y :: ys).takeWhile p = xs := by
  induction xs with
  | nil => simp [List.takeWhile_cons, hy]
  | cons a as ih =>
    have ha : p a = true := h a (by simp)
    rw [List.cons_append, List.takeWhile_cons, ha]
    simp only [if_true]
    rw [ih fun c hc => h c (by simp [hc])]

theorem takeWhile_all {p : Char → Bool} (xs : List Char)
    (h : ∀ c ∈ xs, p c = true) : xs.takeWhile p = xs := by
  induction xs with
  | nil => rfl
  | cons a as ih =>
    have ha : p a = true := h a (by simp)
    rw [List.takeWhile_cons, ha]
    simp only [if_true]
    rw [ih fun c hc => h c (by simp [hc])]

theorem takeWhile_stop_head {p : Char → Bool} (y : Char) (ys : List Char)
    (hy : p y = false) : (y :: ys).takeWhile p = [] := by
  simp [List.takeWhile_cons, hy]

theorem drop_len_append (xs ys : List Char) : (xs ++ ys).drop xs.length = ys :=
  List.drop_left xs ys

/-- Token extraction: the non-space token of `xs ++ space :: ys` is `xs`. -/
theorem nonSpaceToken_append (xs ys : List Char)
    (h : ∀ c ∈ xs, c ≠ ' ') :
    nonSpaceToken (xs ++ ' ' :: ys) = some (xs, ' ' :: ys) := by
  unfold nonSpaceToken
  have ht : (xs ++ ' ' :: ys).takeWhile (fun c => !(c = ' ')) = xs := by
    apply takeWhile_append_stop
    · intro c hc
      simp [h c hc]
    · simp
  rw [ht, drop_len_append]

theorem nonSpaceToken_all (xs : List Char)
    (h : ∀ c ∈ xs, c ≠ ' ') :
    nonSpaceToken xs = some (xs, []) := by
  unfold nonSpaceToken
  have ht : xs.takeWhile (fun c => !(c = ' ')) = xs := by
    apply takeWhile_all
    intro c hc
    simp [h c hc]
  rw [ht, List.drop_length]

theorem integer_append (ds : List Char) (c : Char) (rest : List Char)
    (hne : ds ≠ []) (hds : ∀ x ∈ ds, isDigitC x = true)
    (hc : isDigitC c = false) :
    integer (ds ++ c :: rest) = some (digitsVal ds, c :: rest) := by
  unfold integer
  rw [takeWhile_append_stop ds c rest hds hc, drop_len_append]
  simp [hne]

theorem integer_all (ds : List Char) (hne : ds ≠ [])
    (hds : ∀ x ∈ ds, isDigitC x = true) :
    integer ds = some (digitsVal ds, []) := by
  unfold integer
  rw [takeWhile_all ds hds, List.drop_length]
  simp [hne]

theorem integer_not_digit (c : Char) (rest : List Char)
    (hc : isDigitC c = false) : integer (c :: rest) = none := by
  unfold integer
  rw [takeWhile_stop_head c rest hc]
  simp

theorem mSpaces_cons (c : Char) (rest : List Char) (h : isSpaceC c = false) :
    mSpaces (' ' :: c :: rest) = some ((), c :: rest) := by
  have hsp : isSpaceC ' ' = true := by decide
  unfold mSpaces
  simp only [hsp, if_true, List.dropWhile, h]

theorem mSpaces_not (c : Char) (rest : List Char) (h : isSpaceC c = false) :
    mSpaces (c :: rest) = none := by
  unfold mSpaces
  simp [h]

/-! ## Decimal rendering of numbers, used to state claims about inputs -/

/-- The decimal digit character for a value below ten. -/
def digitChar : Nat → Char
  | 0 => '0' | 1 => '1' | 2 => '2' | 3 => '3' | 4 => '4'
  | 5 => '5' | 6 => '6' | 7 => '7' | 8 => '8' | _ => '9'

/-- Fuel-driven base-10 rendering (the fuel bounds the digit count). -/
def decimalAux : Nat → Nat → List Char
  | 0, _ => []
  | f + 1, n =>
    if n < 10 then [digitChar n]
    else decimalAux f (n / 10) ++ [digitChar (n % 10)]

/-- Canonical base-10 rendering of a natural number. -/
def decimal (n : Nat) : List Char := decimalAux (n + 1) n

theorem digitChar_spec (k : Nat) (h : k < 10) :
    isDigitC (digitChar k) = true ∧ (digitChar k).toNat - 48 = k := by
  interval_cases k <;> exact ⟨by decide, by decide⟩

theorem digitsVal_append_one (xs : List Char) (c : Char) :
    digitsVal (xs ++ [c]) = 10 * digitsVal xs + (c.toNat - 48) := by
  unfold digitsVal
  rw [List.foldl_append]
  rfl

theorem decimalAux_spec : ∀ f n, n < f →
    (decimalAux f n ≠ [] ∧ (∀ c ∈ decimalAux f n, isDigitC c = true) ∧
      digitsVal (decimalAux f n) = n) := by
  intro f
  induction f with
  | zero => intro n hn; omega
  | succ f ih =>
    intro n hn
    by_cases h : n < 10
    · unfold decimalAux
      rw [if_pos h]
      refine ⟨by simp, ?_, ?_⟩
      · intro c hc
        simp at hc
        subst hc
        exact (digitChar_spec n h).1
      · show digitsVal ([] ++ [digitChar n]) = n
        rw [digitsVal_append_one]
        have h2 := (digitChar_spec n h).2
        unfold digitsVal
        simp [h2]
    · have hd : n / 10 < f := by omega
      have ihd := ih (n / 10) hd
      unfold decimalAux
      rw [if_neg h]
      refine ⟨by simp, ?_, ?_⟩
      · intro c hc
        rw [List.mem_append] at hc
        rcases hc with hc | hc
        · exact ihd.2.1 c hc
        · simp at hc
          subst hc
          exact (digitChar_spec (n % 10) (by omega)).1
      · rw [digitsVal_append_one, ihd.2.2, (digitChar_spec (n % 10) (by omega)).2]
        omega

theorem decimal_ne_nil (n : Nat) : decimal n ≠ [] :=
  (decimalAux_spec (n + 1) n (by omega)).1

theorem decimal_digits (n : Nat) : ∀ c ∈ decimal n, isDigitC c = true :=
  (decimalAux_spec (n + 1) n (by omega)).2.1

theorem decimal_val (n : Nat) : digitsVal (decimal n) = n :=
  (decimalAux_spec (n + 1) n (by omega)).2.2

theorem decimal_not_space (n : Nat) : ∀ c ∈ decimal n, c ≠ ' ' := by
  intro c hc
  have hd := decimal_digits n c hc
  intro he
  subst he
  cases hd

theorem decimalAux_fuel : ∀ f f' n, n < f → n < f' →
    decimalAux f n = decimalAux f' n := by
  intro f
  induction f with
  | zero => intro f' n hn; omega
  | succ f ih =>
    intro f' n hf hf'
    cases f' with
    | zero => omega
    | succ f' =>
      by_cases h : n < 10
      · unfold decimalAux
        rw [if_pos h, if_pos h]
      · unfold decimalAux
        rw [if_neg h, if_neg h]
        rw [ih f' (n / 10) (by omega) (by omega)]

theorem decimal_step (n : Nat) (h : 10 ≤ n) :
    decimal n = decimal (n / 10) ++ [digitChar (n % 10)] := by
  unfold decimal
  conv_lhs => unfold decimalAux
  rw [if_neg (by omega)]
  rw [decimalAux_fuel n (n / 10 + 1) (n / 10) (by omega) (by omega)]

theorem decimal_len_one (n : Nat) (h : n < 10) : (decimal n).length = 1 := by
  unfold decimal decimalAux
  rw [if_pos h]
  rfl

theorem decimal_len_le_two (n : Nat) (h : n < 100) :
    (decimal n).length ≤ 2 := by
  by_cases h1 : n < 10
  · rw [decimal_len_one n h1]
    omega
  · rw [decimal_step n (by omega)]
    simp only [List.length_append]
    rw [decimal_len_one (n / 10) (by omega)]
    simp

theorem decimal_len_four (n : Nat) (h1 : 1000 ≤ n) (h2 : n ≤ 9999) :
    (decimal n).length = 4 := by
  rw [decimal_step n (by omega)]
  rw [decimal_step (n / 10) (by omega)]
  rw [decimal_step (n / 10 / 10) (by omega)]
  simp only [List.length_append]
  rw [decimal_len_one (n / 10 / 10 / 10) (by omega)]
  rfl

/-! ## Structure of tokens recognized as month names -/

/-- The twelve lowered three-letter prefixes of English month names. -/
def keyTriples : List (Char × Char × Char) :=
  [('j','a','n'), ('f','e','b'), ('m','a','r'), ('a','p','r'), ('m','a','y'),
   ('j','u','n'), ('j','u','l'), ('a','u','g'), ('s','e','p'), ('o','c','t'),
   ('n','o','v'), ('d','e','c')]

theorem tableFind_some : ∀ (t : List (String × Nat)) (x : List Char) (m : Nat),
    tableFind t x = some m → ∃ s, (s, m) ∈ t ∧ x = s.data := by
  intro t
  induction t with
  | nil => intro x m h; cases h
  | cons e rest ih =>
    intro x m h
    obtain ⟨s, mm⟩ := e
    unfold tableFind at h
    by_cases he : x = s.data
    · rw [if_pos he] at h
      injection h with h
      subst h
      exact ⟨s, by simp, he⟩
    · rw [if_neg he] at h
      obtain ⟨s', hs', hx⟩ := ih x m h
      exact ⟨s', by simp [hs'], hx⟩

theorem map_eq_cons3 (f : Char → Char) (tok : List Char) (a b c : Char)
    (rest : List Char) (h : tok.map f = a :: b :: c :: rest) :
    ∃ t0 t1 t2 tt, tok = t0 :: t1 :: t2 :: tt ∧ f t0 = a ∧ f t1 = b ∧
      f t2 = c ∧ tt.map f = rest := by
  cases tok with
  | nil => cases h
  | cons t0 ts =>
    cases ts with
    | nil => cases ((List.cons.inj h).2)
    | cons t1 ts2 =>
      cases ts2 with
      | nil => cases ((List.cons.inj ((List.cons.inj h).2)).2)
      | cons t2 tt =>
        simp only [List.map, List.cons.injEq] at h
        exact ⟨t0, t1, t2, tt, rfl, h.1, h.2.1, h.2.2.1, h.2.2.2⟩

theorem map_lower_no_space (tok s : List Char) (h : tok.map lowerChar = s)
    (hs : ∀ c ∈ s, c ≠ ' ') : ∀ c ∈ tok, c ≠ ' ' := by
  intro c hc he
  subst he
  have hm : lowerChar ' ' ∈ s := h ▸ List.mem_map_of_mem lowerChar hc
  have hl : lowerChar ' ' = ' ' := by decide
  rw [hl] at hm
  exact hs ' ' hm rfl

theorem not_digit_of_lower (t u : Char) (h : lowerChar t = u)
    (hu : isDigitC u = false) : isDigitC t = false := by
  by_cases hd : isDigitC t = true
  · rw [lowerChar_fix_of_digit t hd] at h
    subst h
    rw [hd] at hu
    cases hu
  · simp at hd
    exact hd

theorem not_space_of_lower (t u : Char) (h : lowerChar t = u)
    (hu : isSpaceC u = false) : isSpaceC t = false := by
  by_cases hd : isSpaceC t = true
  · rw [lowerChar_fix_of_space t hd] at h
    subst h
    rw [hd] at hu
    cases hu
  · simp at hd
    exact hd

/-- Any token the month lookup accepts starts with three non-space,
non-digit characters whose lowered forms are a month-name prefix. -/
theorem month_tok_shape (tok : List Char) (m : Nat)
    (h : textToMonth tok = some m) :
    ∃ t0 t1 t2 tt, tok = t0 :: t1 :: t2 :: tt ∧
      (lowerChar t0, lowerChar t1, lowerChar t2) ∈ keyTriples ∧
      (∀ c ∈ tok, c ≠ ' ') ∧ isDigitC t0 = false ∧ isSpaceC t0 = false := by
  unfold textToMonth at h
  obtain ⟨s, hmem, heq⟩ := tableFind_some _ _ _ h
  simp only [lowerAll] at heq
  fin_cases hmem <;>
  · obtain ⟨t0, t1, t2, tt, htok, h0, h1, h2, hrest⟩ :=
      map_eq_cons3 lowerChar tok _ _ _ _ heq
    subst htok
    refine ⟨t0, t1, t2, tt, rfl, ?_, ?_, ?_, ?_⟩
    · rw [h0, h1, h2]
      decide
    · exact map_lower_no_space _ _ heq (by decide)
    · exact not_digit_of_lower _ _ h0 (by decide)
    · exact not_space_of_lower _ _ h0 (by decide)

theorem matchLit3_none (w0 w1 w2 : Char) (ws : List Char) (t0 t1 t2 : Char)
    (tt : List Char) (h : ¬(w0 = t0 ∧ w1 = t1 ∧ w2 = t2)) :
    matchLit (w0 :: w1 :: w2 :: ws) (t0 :: t1 :: t2 :: tt) = none := by
  by_cases h0 : w0 = t0
  · by_cases h1 : w1 = t1
    · by_cases h2 : w2 = t2
      · exact absurd ⟨h0, h1, h2⟩ h
      · simp [matchLit, h0, h1, h2]
    · simp [matchLit, h0, h1]
  · simp [matchLit, h0]

theorem triple_excl (t0 t1 t2 : Char)
    (h : (lowerChar t0, lowerChar t1, lowerChar t2) ∈ keyTriples)
    (w0 w1 w2 : Char)
    (hw : ¬((lowerChar w0, lowerChar w1, lowerChar w2) ∈ keyTriples)) :
    ¬(w0 = t0 ∧ w1 = t1 ∧ w2 = t2) := by
  rintro ⟨rfl, rfl, rfl⟩
  exact hw h

/-- A literal whose first three lowered characters are not a month-name
prefix cannot match at the start of a month token. -/
theorem mString_month_start (tok : List Char) (m : Nat)
    (htm : textToMonth tok = some m) (w : String) (w0 w1 w2 : Char)
    (ws : List Char) (hw : w.data = w0 :: w1 :: w2 :: ws)
    (hkw : ¬((lowerChar w0, lowerChar w1, lowerChar w2) ∈ keyTriples))
    (rest : List Char) : mString w (tok ++ rest) = none := by
  obtain ⟨t0, t1, t2, tt, htok, htr, _, _, _⟩ := month_tok_shape tok m htm
  subst htok
  unfold mString
  rw [hw]
  simp only [List.cons_append]
  rw [matchLit3_none _ _ _ _ _ _ _ _ (triple_excl t0 t1 t2 htr w0 w1 w2 hkw)]
  rfl

theorem key_heads (s : String) (mm : Nat) (hmem : (s, mm) ∈ monthTable) :
    ∃ k0 ks, s.data = k0 :: ks ∧ isDigitC k0 = false := by
  fin_cases hmem <;> exact ⟨_, _, rfl, by decide⟩

theorem digit_ne_space (c : Char) (h : isDigitC c = true) : c ≠ ' ' := by
  intro he
  subst he
  cases h

theorem textToMonth_digit_head (c : Char) (l : List Char)
    (h : isDigitC c = true) : textToMonth (c :: l) = none := by
  unfold textToMonth lowerAll
  simp only [List.map]
  rw [lowerChar_fix_of_digit c h]
  rcases hfind : tableFind monthTable (c :: List.map lowerChar l) with _ | m
  · rfl
  · exfalso
    obtain ⟨s, hmem, heq⟩ := tableFind_some _ _ _ hfind
    obtain ⟨k0, ks, hs, hk0⟩ := key_heads s m hmem
    rw [hs] at heq
    have hc : c = k0 := (List.cons.inj heq).1
    rw [hc, hk0] at h
    cases h

theorem month_digit_start (c : Char) (rest : List Char)
    (h : isDigitC c = true) : month (c :: rest) = none := by
  unfold month momentParser nonSpaceToken
  rw [List.takeWhile_cons]
  have hcs : (!(c = ' ')) = true := by
    simp [digit_ne_space c h]
  simp only [hcs, if_true, Option.some_bind]
  rw [textToMonth_digit_head c _ h]

/-! ## Behavior of the component parsers on classified inputs -/

theorem month_append (tok ys : List Char) (m : Nat)
    (htm : textToMonth tok = some m) (hsp : ∀ c ∈ tok, c ≠ ' ') :
    month (tok ++ ' ' :: ys) = some (m, ' ' :: ys) := by
  unfold month momentParser
  rw [nonSpaceToken_append tok ys hsp]
  simp only [Option.some_bind, htm]

theorem month_whole (tok : List Char) (m : Nat)
    (htm : textToMonth tok = some m) (hsp : ∀ c ∈ tok, c ≠ ' ') :
    month tok = some (m, []) := by
  unfold month momentParser
  rw [nonSpaceToken_all tok hsp]
  simp only [Option.some_bind, htm]

theorem ne_digit_sym (c k : Char) (h : isDigitC c = true)
    (hk : isDigitC k = false) : ¬(k = c) := fun he =>
  digit_ne_of_not c k h hk he.symm

theorem mString_head_ne (w : String) (w0 : Char) (ws : List Char)
    (hw : w.data = w0 :: ws) (c : Char) (rest : List Char) (h : ¬(w0 = c)) :
    mString w (c :: rest) = none := by
  unfold mString
  rw [hw]
  simp [matchLit, h]

theorem mSpaces_one_nonspace (l : List Char)
    (h : match l with | [] => True | c :: _ => isSpaceC c = false) :
    mSpaces (' ' :: l) = some ((), l) := by
  cases l with
  | nil => decide
  | cons c rest => exact mSpaces_cons c rest h

theorem textToYear4_short (l : List Char) (h : l.length ≠ 4) :
    textToYear4 l = none := by
  unfold textToYear4
  simp [h]

theorem mSpaces_month_start (tok : List Char) (m : Nat)
    (htm : textToMonth tok = some m) (rest : List Char) :
    mSpaces (tok ++ rest) = none := by
  obtain ⟨t0, t1, t2, tt, htok, _, _, _, hs0⟩ := month_tok_shape tok m htm
  subst htok
  simp only [List.cons_append]
  exact mSpaces_not t0 _ hs0

theorem integer_month_start (tok : List Char) (m : Nat)
    (htm : textToMonth tok = some m) (rest : List Char) :
    integer (tok ++ rest) = none := by
  obtain ⟨t0, t1, t2, tt, htok, _, _, hd0, _⟩ := month_tok_shape tok m htm
  subst htok
  simp only [List.cons_append]
  exact integer_not_digit t0 _ hd0

theorem relativeDate_month_start (nw : Moment) (eng : Parser SDate)
    (tok : List Char) (m : Nat) (htm : textToMonth tok = some m)
    (rest : List Char) : relativeDate nw eng (tok ++ rest) = none := by
  have hint := integer_month_start tok m htm rest
  have hthe := mString_month_start tok m htm "the" 't' 'h' 'e' [] rfl
    (by decide) rest
  have hspc := mSpaces_month_start tok m htm rest
  have hday := mString_month_start tok m htm "day" 'd' 'a' 'y' [] rfl
    (by decide) rest
  have hweek := mString_month_start tok m htm "week" 'w' 'e' 'e' ['k'] rfl
    (by decide) rest
  have hmon := mString_month_start tok m htm "month" 'm' 'o' 'n' "th".data rfl
    (by decide) rest
  have hyear := mString_month_start tok m htm "year" 'y' 'e' 'a' ['r'] rfl
    (by decide) rest
  unfold relativeDate interval intervalUnit
  simp only [mOr, mAnd, mValue, mMaybe, hint, hthe, hspc, hday, hweek, hmon,
    hyear, Option.some_bind, Option.none_bind]

theorem nowP_month_start (nw : Moment) (tok : List Char) (m : Nat)
    (htm : textToMonth tok = some m) (rest : List Char) :
    nowP nw (tok ++ rest) = none := by
  have h1 := mString_month_start tok m htm "today" 't' 'o' 'd' "ay".data rfl
    (by decide) rest
  have h2 := mString_month_start tok m htm "now" 'n' 'o' 'w' [] rfl
    (by decide) rest
  unfold nowP
  simp only [mOr, mAnd, mValue, h1, h2, Option.none_bind]

theorem yesterdayP_month_start (nw : Moment) (tok : List Char) (m : Nat)
    (htm : textToMonth tok = some m) (rest : List Char) :
    yesterdayP nw (tok ++ rest) = none := by
  have h1 := mString_month_start tok m htm "yesterday" 'y' 'e' 's'
    "terday".data rfl (by decide) rest
  unfold yesterdayP
  simp only [mAnd, h1, Option.none_bind]

/-! ## Claim C1: invalid month-day combinations fail to parse -/

theorem day_int (d : Nat) (rest out : List Char)
    (hi : integer rest = some (d, out)) (h1 : 1 ≤ d) (h2 : d ≤ 31) :
    day rest = some (d, out) := by
  unfold day
  rw [hi]
  simp [h1, h2]

theorem mk_data (l : List Char) : (String.mk l).data = l := rfl

theorem decimal_head_digit (d : Nat) (c : Char) (cs : List Char)
    (hdec : decimal d = c :: cs) : isDigitC c = true := by
  apply decimal_digits d
  rw [hdec]
  simp

theorem decimal_head_nonspace (d : Nat) :
    (match decimal d with | [] => True | c :: _ => isSpaceC c = false) := by
  rcases hdec : decimal d with _ | ⟨c, cs⟩
  · trivial
  · have hdig := decimal_head_digit d c cs hdec
    by_cases hsc : isSpaceC c = true
    · exfalso
      unfold isSpaceC at hsc
      simp only [Bool.or_eq_true, decide_eq_true_eq] at hsc
      rcases hsc with ((hsc | hsc) | hsc) | hsc <;> subst hsc <;> cases hdig
    · simp at hsc
      exact hsc

theorem integer_decimal (d : Nat) : integer (decimal d) = some (d, []) := by
  have h := integer_all (decimal d) (decimal_ne_nil d) (decimal_digits d)
  rw [decimal_val d] at h
  exact h

theorem year_decimal_short (d : Nat) (hd : d < 100) :
    year (decimal d) = none := by
  unfold year momentParser
  rw [nonSpaceToken_all (decimal d) (decimal_not_space d)]
  have hl : (decimal d).length ≠ 4 := by
    have := decimal_len_le_two d hd
    omega
  simp only [Option.some_bind, textToYear4_short _ hl]

/-- C1: for a month-name token and a syntactically acceptable day count
that does not denote a real day of that month in the current year, every
grammar alternative fails, so `parseDate` produces no date. -/
theorem C1_invalid_monthday_fails (nw : Moment) (tok : List Char) (m d : Nat)
    (htm : textToMonth tok = some m) (h1 : 1 ≤ d) (h2 : d ≤ 31)
    (hv : dateValid nw.date.year m d = false) :
    parseDate (String.mk (tok ++ ' ' :: decimal d)) nw = none := by
  obtain ⟨t0, t1, t2, tt, htok, htr, hsp, hd0, hs0⟩ := month_tok_shape tok m htm
  have hmon : month (tok ++ ' ' :: decimal d) = some (m, ' ' :: decimal d) :=
    month_append tok (decimal d) m htm hsp
  have hspd : mSpaces (' ' :: decimal d) = some ((), decimal d) :=
    mSpaces_one_nonspace _ (decimal_head_nonspace d)
  have hday : day (decimal d) = some (d, []) :=
    day_int d _ _ (integer_decimal d) h1 h2
  have hyr : year (decimal d) = none := year_decimal_short d (by omega)
  have hcomma0 : mString "," ([] : List Char) = none := by decide
  have hsp0 : mSpaces ([] : List Char) = none := rfl
  have hyr0 : year ([] : List Char) = none := by decide
  have hfd : fullDate (tok ++ ' ' :: decimal d) = none := by
    unfold fullDate
    simp only [hmon, Option.some_bind, hspd, hday, mMaybe, hcomma0, hsp0,
      hyr0, Option.none_bind]
  have hmd : monthAndDay nw (tok ++ ' ' :: decimal d) = none := by
    unfold monthAndDay
    simp only [hmon, Option.some_bind, hspd, hday, hv, Bool.false_eq_true,
      if_false]
  have hmy : monthAndYear (tok ++ ' ' :: decimal d) = none := by
    unfold monthAndYear
    simp only [hmon, Option.some_bind, hspd, hyr, Option.none_bind]
  have hloc : localeDate nw (tok ++ ' ' :: decimal d) = none := by
    unfold localeDate
    simp only [mOr, hfd, hmd, hmy]
  have hrel := relativeDate_month_start nw
    (englishDateParser nw (tok ++ ' ' :: decimal d).length) tok m htm
    (' ' :: decimal d)
  have hnow := nowP_month_start nw tok m htm (' ' :: decimal d)
  have hyes := yesterdayP_month_start nw tok m htm (' ' :: decimal d)
  have hms := mSpaces_month_start tok m htm (' ' :: decimal d)
  unfold parseDate
  rw [mk_data]
  simp only [englishDateParser, englishCore, mFollowedBy, mAnd, mMaybe, mOr,
    hms, hloc, hrel, hnow, hyes, Option.some_bind, Option.none_bind,
    Option.map_none']

/-- C1 witness: `Feb 30` is rejected. -/
theorem C1_witness :
    textToMonth "Feb".data = some 1 ∧ 1 ≤ 30 ∧ 30 ≤ 31 ∧
    dateValid nw0.date.year 1 30 = false ∧
    parseDate (String.mk ("Feb".data ++ ' ' :: decimal 30)) nw0 = none :=
  ⟨by decide, by decide, by decide, by decide,
   C1_invalid_monthday_fails nw0 "Feb".data 1 30 (by decide) (by decide)
     (by decide) (by decide)⟩

/-! ## Claim C3: recursive reference clauses resolve inner-first -/

set_option maxHeartbeats 8000000 in
/-- C3: on `1 month from 2 days before Aug 30` the inner clause resolves
to Aug 28 of the current year and the outer interval subtracts one month
from that intermediate result. -/
theorem C3_recursive_reference (nw : Moment) :
    parseDate "1 month from 2 days before Aug 30" nw =
      some (subtractUnit "month".data 1
        (subtractUnit "day".data 2 ⟨nw.date.year, 7, 30⟩)) ∧
    subtractUnit "day".data 2 ⟨nw.date.year, 7, 30⟩ = ⟨nw.date.year, 7, 28⟩ := by
  constructor
  · unfold parseDate
    rfl
  · rfl

/-! ## Claim C8: the interval count and the `the` alias -/

/-- C8 counterexample: a relative-date phrase whose count is `0`, not a
positive integer, is accepted by the parser. -/
theorem C8_counterexample : parseDate "0 days ago" nw0 = some ⟨2013, 7, 20⟩ := by
  decide

set_option maxHeartbeats 8000000 in
/-- C8 amended: the interval count is any integer literal (no positivity
check, so `0` is accepted and subtracts nothing) or the literal `the`
meaning 1; `the day before yesterday` parses exactly like
`1 day before yesterday`. -/
theorem C8_interval_the_alias (nw : Moment) :
    parseDate "the day before yesterday" nw =
      some (subDays 1 (subDays 1 (startOfDay nw))) ∧
    parseDate "1 day before yesterday" nw =
      some (subDays 1 (subDays 1 (startOfDay nw))) ∧
    parseDate "0 days ago" nw = some (startOfDay nw) := by
  refine ⟨?_, ?_, ?_⟩ <;>
  · unfold parseDate
    rfl

/-! ## Claim C10: fixed keywords match only their exact lowercase form -/

set_option maxHeartbeats 8000000 in
/-- C10: the literal matcher is exact and case sensitive (it succeeds
exactly on its own spelling as a prefix), so capitalized keywords such as
`Today` or `Days` make the parse fail. -/
theorem C10_keywords_exact (nw : Moment) :
    (∀ w input r, matchLit w input = some r ↔ input = w ++ r) ∧
    parseDate "Today" nw = none ∧
    parseDate "3 Days ago" nw = none := by
  refine ⟨fun w => matchLit_eq_some w, ?_, ?_⟩ <;>
  · unfold parseDate
    rfl

/-! ## Claim C9: unconsumed non-space input fails the whole parse -/

theorem mMaybe_mSpaces_eq (input : List Char) :
    ∃ o : Option Unit,
      mMaybe mSpaces input = some (o, input.dropWhile isSpaceC) := by
  cases input with
  | nil => exact ⟨none, rfl⟩
  | cons c rest =>
    by_cases h : isSpaceC c = true
    · refine ⟨some (), ?_⟩
      unfold mMaybe mSpaces
      simp only [h, if_true, List.dropWhile_cons, h]
    · refine ⟨none, ?_⟩
      have hf : isSpaceC c = false := by simpa using h
      unfold mMaybe
      rw [mSpaces_not c rest hf, List.dropWhile_cons]
      simp [hf]

theorem dropWhile_ne_nil (r : List Char) (c : Char) (hc : c ∈ r)
    (hns : isSpaceC c = false) : r.dropWhile isSpaceC ≠ [] := by
  induction r with
  | nil => cases hc
  | cons a as ih =>
    rw [List.dropWhile_cons]
    by_cases ha : isSpaceC a = true
    · simp only [ha, if_true]
      rcases List.mem_cons.1 hc with he | hm
      · subst he
        rw [ha] at hns
        cases hns
      · exact ih hm
    · simp [ha]

theorem mEof_ne_nil (l : List Char) (h : l ≠ []) : mEof l = none := by
  unfold mEof
  simp [h]

/-- C9: end of input is enforced after the top-level alternation and
optional trailing whitespace: if an alternative succeeds but leaves a
non-space character unconsumed, the whole parse fails; in particular
`today please` fails. -/
theorem C9_trailing_garbage (nw : Moment) (fuel : Nat) (input : List Char)
    (v : SDate) (r : List Char) (c : Char)
    (halt : mOr (localeDate nw)
      (mOr (relativeDate nw (englishDateParser nw fuel))
        (mOr (nowP nw) (yesterdayP nw)))
      (input.dropWhile isSpaceC) = some (v, r))
    (hc : c ∈ r) (hns : isSpaceC c = false) :
    englishDateParser nw (fuel + 1) input = none ∧
    (∀ nw2 : Moment, parseDate "today please" nw2 = none) := by
  constructor
  · obtain ⟨o1, ho1⟩ := mMaybe_mSpaces_eq input
    obtain ⟨o2, ho2⟩ := mMaybe_mSpaces_eq r
    have hne := dropWhile_ne_nil r c hc hns
    show englishCore nw (englishDateParser nw fuel) input = none
    unfold englishCore mFollowedBy mAnd
    simp only [ho1, Option.some_bind, halt, ho2, Option.map_some',
      mEof_ne_nil _ hne, Option.map_none', Option.none_bind, Option.some_bind]
  · intro nw2
    unfold parseDate
    rfl

/-! ## Claim C5: the year parser takes exactly a 4-digit numeric token -/

set_option maxHeartbeats 8000000 in
/-- C5: the year parser succeeds exactly when the text up to the next
space is a 4-digit numeric token, reporting its integer value; with a
2-digit year as in `Aug 20, 13` no date is produced. -/
theorem C5_year_4_digits :
    (∀ input y rest, year input = some (y, rest) ↔
      ((input.takeWhile (fun c => !(c = ' '))).length = 4 ∧
       (input.takeWhile (fun c => !(c = ' '))).all isDigitC = true ∧
       y = digitsVal (input.takeWhile (fun c => !(c = ' '))) ∧
       rest = input.drop (input.takeWhile (fun c => !(c = ' '))).length)) ∧
    (∀ nw : Moment, parseDate "Aug 20, 13" nw = none) := by
  constructor
  · intro input y rest
    unfold year momentParser nonSpaceToken textToYear4
    simp only [Option.some_bind]
    rcases h4 : (if (input.takeWhile (fun c => !(c = ' '))).length = 4 &&
        (input.takeWhile (fun c => !(c = ' '))).all isDigitC then
        some (digitsVal (input.takeWhile (fun c => !(c = ' ')))) else none)
      with _ | v
    · simp only [Option.map_none']
      constructor
      · intro hc
        cases hc
      · rintro ⟨hl, ha, hy, hr⟩
        rw [if_pos (by simp [hl, ha])] at h4
        cases h4
    · rcases hcond : ((input.takeWhile (fun c => !(c = ' '))).length = 4 &&
          (input.takeWhile (fun c => !(c = ' '))).all isDigitC) with _ | _
      · rw [if_neg (by simp [hcond])] at h4
        cases h4
      · rw [if_pos hcond] at h4
        injection h4 with h4
        simp only [Bool.and_eq_true, decide_eq_true_eq] at hcond
        constructor
        · intro hc
          injection hc with hc
          rw [Prod.mk.injEq] at hc
          exact ⟨hcond.1, hcond.2, hc.1.symm.trans h4.symm, hc.2.symm⟩
        · rintro ⟨hl, ha, hy, hr⟩
          rw [hy, hr, h4]
  · intro nw
    unfold parseDate
    rfl

/-! ## Claim C6: months are recognized from the English name table only -/

/-- C6: the month parser succeeds exactly when the text up to the next
space is found, case-insensitively, in the table of abbreviated and full
English month names; any other token, in particular a bare numeral,
fails. -/
theorem C6_month_name_table :
    (∀ input m rest, month input = some (m, rest) ↔
      (tableFind monthTable
        (lowerAll (input.takeWhile (fun c => !(c = ' ')))) = some m ∧
       rest = input.drop (input.takeWhile (fun c => !(c = ' '))).length)) ∧
    (∀ c rest, isDigitC c = true → month (c :: rest) = none) := by
  constructor
  · intro input m rest
    unfold month momentParser nonSpaceToken textToMonth
    simp only [Option.some_bind]
    rcases hf : tableFind monthTable
        (lowerAll (input.takeWhile (fun c => !(c = ' ')))) with _ | v
    · constructor
      · intro hc
        cases hc
      · rintro ⟨h1, h2⟩
        cases h1
    · constructor
      · intro hc
        injection hc with hc
        rw [Prod.mk.injEq] at hc
        refine ⟨?_, hc.2.symm⟩
        rw [← hc.1]
        try exact hf
      · rintro ⟨h1, h2⟩
        injection h1 with h1
        rw [h1, h2]
        try rfl
  · exact fun c rest h => month_digit_start c rest h

/-- C6 witness: `jan` resolves to month 0 and a bare numeral is not a
month. -/
theorem C6_witness : month "jan 1".data = some (0, " 1".data) ∧
    month ['3'] = none :=
  ⟨(C6_month_name_table.1 "jan 1".data 0 " 1".data).mpr ⟨by decide, by decide⟩,
   C6_month_name_table.2 '3' [] (by decide)⟩

/-- C5 witness: a 4-digit token is accepted with its integer value, and
`Aug 20, 13` produces no date. -/
theorem C5_witness : year "2013".data = some (2013, []) ∧
    parseDate "Aug 20, 13" nw0 = none :=
  ⟨(C5_year_4_digits.1 "2013".data 2013 []).mpr
    ⟨by decide, by decide, by decide, by decide⟩,
   C5_year_4_digits.2 nw0⟩

/-- C9 witness: `today please` leaves ` please` unconsumed after the
`today` alternative, so the parse fails. -/
theorem C9_witness : englishDateParser nw0 (12 + 1) "today please".data = none :=
  (C9_trailing_garbage nw0 12 "today please".data nw0.date " please".data 'p'
    (by decide) (by decide) (by decide)).1

/-! ## Claim C2: relative dates anchored at `ago` -/

theorem digit_not_space (c : Char) (h : isDigitC c = true) :
    isSpaceC c = false := by
  by_cases hs : isSpaceC c = true
  · exfalso
    unfold isSpaceC at hs
    simp only [Bool.or_eq_true, decide_eq_true_eq] at hs
    rcases hs with ((hs | hs) | hs) | hs <;> subst hs <;> cases h
  · simpa using hs

theorem mMaybe_mSpaces_nospace (c : Char) (rest : List Char)
    (h : isSpaceC c = false) :
    mMaybe mSpaces (c :: rest) = some (none, c :: rest) := by
  unfold mMaybe
  rw [mSpaces_not c rest h]

theorem localeDate_digit_start (nw : Moment) (c : Char) (rest : List Char)
    (h : isDigitC c = true) : localeDate nw (c :: rest) = none := by
  have hm := month_digit_start c rest h
  unfold localeDate fullDate monthAndDay monthAndYear
  simp only [mOr, hm, Option.none_bind]

theorem integer_decimal_append (N : Nat) (rest : List Char) :
    integer (decimal N ++ ' ' :: rest) = some (N, ' ' :: rest) := by
  have h := integer_append (decimal N) ' ' rest (decimal_ne_nil N)
    (decimal_digits N) (by decide)
  rw [decimal_val N] at h
  exact h

/-- Assembly step for relative phrases `N <unit words> ago`: once the unit
segment R is consumed down to ` ago`, the whole phrase parses to the
current date shifted into the past. -/
theorem relativeAgo_assemble (nw : Moment) (N : Nat) (u R : List Char)
    (hRs : mSpaces (' ' :: R) = some ((), R))
    (hIU : intervalUnit R = some (u, ' ' :: "ago".data)) :
    parseDate (String.mk (decimal N ++ ' ' :: R)) nw =
      some (subtractUnit u N (startOfDay nw)) := by
  obtain ⟨d0, ds, hdec⟩ : ∃ d0 ds, decimal N = d0 :: ds := by
    rcases h : decimal N with _ | ⟨a, b⟩
    · exact absurd h (decimal_ne_nil N)
    · exact ⟨a, b, rfl⟩
  have hd0 : isDigitC d0 = true := decimal_head_digit N d0 ds hdec
  have hint := integer_decimal_append N R
  have hmay : mMaybe mSpaces (decimal N ++ ' ' :: R) =
      some (none, decimal N ++ ' ' :: R) := by
    rw [hdec]
    simp only [List.cons_append]
    exact mMaybe_mSpaces_nospace d0 _ (digit_not_space d0 hd0)
  have hloc : localeDate nw (decimal N ++ ' ' :: R) = none := by
    rw [hdec]
    simp only [List.cons_append]
    exact localeDate_digit_start nw d0 _ hd0
  have hrel : relativeDate nw
      (englishDateParser nw (decimal N ++ ' ' :: R).length)
      (decimal N ++ ' ' :: R) =
      some (subtractUnit u N (startOfDay nw), []) := by
    unfold relativeDate interval
    simp only [mOr, hint, Option.some_bind, mMaybe, hRs, hIU]
    rfl
  unfold parseDate
  rw [mk_data]
  simp only [englishDateParser, englishCore, mFollowedBy, mAnd, mOr, hmay,
    hloc, hrel, Option.some_bind, Option.map_some']
  rfl

/-- C2: for every positive count N written in decimal and every interval
unit with an optional plural `s`, the phrase `N unit ago` parses to the
current date truncated to midnight, shifted into the past by N units via
the calendar collaborator. -/
theorem C2_relative_ago (nw : Moment) (N : Nat) (hN : 1 ≤ N) (u pl : String)
    (hu : u ∈ (["day", "week", "month", "year"] : List String))
    (hpl : pl = "" ∨ pl = "s") :
    parseDate (String.mk
        (decimal N ++ ' ' :: (u.data ++ pl.data ++ (' ' :: "ago".data)))) nw =
      some (subtractUnit u.data N (startOfDay nw)) := by
  fin_cases hu <;> rcases hpl with rfl | rfl <;>
    exact relativeAgo_assemble nw N _ _ (by decide) (by decide)

/-- C2 witness: `3 weeks ago` parses to three weeks before today. -/
theorem C2_relative_ago_witness :
    parseDate (String.mk
        (decimal 3 ++ ' ' :: ("week".data ++ "s".data ++ (' ' :: "ago".data))))
      nw0 = some (subtractUnit "week".data 3 (startOfDay nw0)) :=
  C2_relative_ago nw0 3 (by decide) "week" "s" (by decide) (Or.inr rfl)

/-! ## Claim C7: full dates with and without the comma -/

theorem daysInMonth_le_31 (yy : Int) (mm : Nat) : daysInMonth yy mm ≤ 31 := by
  unfold daysInMonth
  split <;> first | decide | (split <;> decide)

theorem dateValid_bounds (yy : Int) (m d : Nat)
    (hv : dateValid yy m d = true) : m ≤ 11 ∧ 1 ≤ d ∧ d ≤ 31 := by
  unfold dateValid at hv
  simp only [Bool.and_eq_true, decide_eq_true_eq] at hv
  have h31 := daysInMonth_le_31 yy m
  exact ⟨hv.1.1, hv.1.2, le_trans hv.2 h31⟩

theorem year_decimal4 (y : Nat) (hy1 : 1000 ≤ y) (hy2 : y ≤ 9999) :
    year (decimal y) = some (y, []) := by
  unfold year momentParser
  rw [nonSpaceToken_all (decimal y) (decimal_not_space y)]
  simp only [Option.some_bind]
  unfold textToYear4
  rw [if_pos]
  · rw [decimal_val y]
  · simp only [Bool.and_eq_true, decide_eq_true_eq, List.all_eq_true]
    exact ⟨by rw [decimal_len_four y hy1 hy2], fun c hc => decimal_digits y c hc⟩

theorem mMaybe_of_some {α : Type} (p : Parser α) (input r : List Char) (a : α)
    (h : p input = some (a, r)) : mMaybe p input = some (some a, r) := by
  unfold mMaybe
  rw [h]

theorem mMaybe_of_none {α : Type} (p : Parser α) (input : List Char)
    (h : p input = none) : mMaybe p input = some (none, input) := by
  unfold mMaybe
  rw [h]

theorem mString_comma (rest : List Char) :
    mString "," (',' :: rest) = some (",".data, rest) := by
  unfold mString
  simp [matchLit]

/-- C7: every real calendar date written as month name, day and 4-digit
year parses to exactly that date, with or without a comma between day and
year. -/
theorem C7_full_date (nw : Moment) (tok : List Char) (m d y : Nat)
    (htm : textToMonth tok = some m) (hy1 : 1000 ≤ y) (hy2 : y ≤ 9999)
    (hv : dateValid (y : Int) m d = true) :
    parseDate (String.mk
        (tok ++ ' ' :: (decimal d ++ ',' :: ' ' :: decimal y))) nw =
      some ⟨(y : Int), m, d⟩ ∧
    parseDate (String.mk (tok ++ ' ' :: (decimal d ++ ' ' :: decimal y))) nw =
      some ⟨(y : Int), m, d⟩ := by
  obtain ⟨t0, t1, t2, tt, htok, htr, hsp, hd0, hs0⟩ := month_tok_shape tok m htm
  obtain ⟨hm11, hd1, hd31⟩ := dateValid_bounds (y : Int) m d hv
  have hyr := year_decimal4 y hy1 hy2
  have hspy : mMaybe mSpaces (' ' :: decimal y) =
      some (some (), decimal y) := by
    apply mMaybe_of_some
    exact mSpaces_one_nonspace _ (decimal_head_nonspace y)
  constructor
  · -- with comma: `Mon D, Y`
    have hmon : month (tok ++ ' ' :: (decimal d ++ ',' :: ' ' :: decimal y)) =
        some (m, ' ' :: (decimal d ++ ',' :: ' ' :: decimal y)) :=
      month_append tok _ m htm hsp
    have hspd : mSpaces (' ' :: (decimal d ++ ',' :: ' ' :: decimal y)) =
        some ((), decimal d ++ ',' :: ' ' :: decimal y) := by
      rcases hdec : decimal d with _ | ⟨c, cs⟩
      · exact absurd hdec (decimal_ne_nil d)
      · simp only [List.cons_append]
        exact mSpaces_cons c _ (digit_not_space c (decimal_head_digit d c cs hdec))
    have hint : integer (decimal d ++ ',' :: ' ' :: decimal y) =
        some (d, ',' :: ' ' :: decimal y) := by
      have h := integer_append (decimal d) ',' (' ' :: decimal y)
        (decimal_ne_nil d) (decimal_digits d) (by decide)
      rw [decimal_val d] at h
      exact h
    have hday : day (decimal d ++ ',' :: ' ' :: decimal y) =
        some (d, ',' :: ' ' :: decimal y) := day_int d _ _ hint hd1 hd31
    have hcm : mMaybe (mString ",") (',' :: ' ' :: decimal y) =
        some (some ",".data, ' ' :: decimal y) :=
      mMaybe_of_some _ _ _ _ (mString_comma (' ' :: decimal y))
    have hfd : fullDate (tok ++ ' ' :: (decimal d ++ ',' :: ' ' :: decimal y)) =
        some (⟨(y : Int), m, d⟩, []) := by
      unfold fullDate
      simp only [hmon, Option.some_bind, hspd, hday, hcm, hspy, hyr, hv,
        if_true]
    have hmay : mMaybe mSpaces
        (tok ++ ' ' :: (decimal d ++ ',' :: ' ' :: decimal y)) =
        some (none, tok ++ ' ' :: (decimal d ++ ',' :: ' ' :: decimal y)) := by
      rw [htok]
      simp only [List.cons_append]
      exact mMaybe_mSpaces_nospace t0 _ hs0
    unfold parseDate
    rw [mk_data]
    simp only [englishDateParser, englishCore, mFollowedBy, mAnd, mOr,
      localeDate, hmay, hfd, Option.some_bind, Option.map_some']
    rfl
  · -- without comma: `Mon D Y`
    have hmon : month (tok ++ ' ' :: (decimal d ++ ' ' :: decimal y)) =
        some (m, ' ' :: (decimal d ++ ' ' :: decimal y)) :=
      month_append tok _ m htm hsp
    have hspd : mSpaces (' ' :: (decimal d ++ ' ' :: decimal y)) =
        some ((), decimal d ++ ' ' :: decimal y) := by
      rcases hdec : decimal d with _ | ⟨c, cs⟩
      · exact absurd hdec (decimal_ne_nil d)
      · simp only [List.cons_append]
        exact mSpaces_cons c _ (digit_not_space c (decimal_head_digit d c cs hdec))
    have hint : integer (decimal d ++ ' ' :: decimal y) =
        some (d, ' ' :: decimal y) := integer_decimal_append d _
    have hday : day (decimal d ++ ' ' :: decimal y) =
        some (d, ' ' :: decimal y) := day_int d _ _ hint hd1 hd31
    have hcm : mMaybe (mString ",") (' ' :: decimal y) =
        some (none, ' ' :: decimal y) :=
      mMaybe_of_none _ _ (mString_head_ne "," ',' [] rfl ' ' _ (by decide))
    have hfd : fullDate (tok ++ ' ' :: (decimal d ++ ' ' :: decimal y)) =
        some (⟨(y : Int), m, d⟩, []) := by
      unfold fullDate
      simp only [hmon, Option.some_bind, hspd, hday, hcm, hspy, hyr, hv,
        if_true]
    have hmay : mMaybe mSpaces (tok ++ ' ' :: (decimal d ++ ' ' :: decimal y)) =
        some (none, tok ++ ' ' :: (decimal d ++ ' ' :: decimal y)) := by
      rw [htok]
      simp only [List.cons_append]
      exact mMaybe_mSpaces_nospace t0 _ hs0
    unfold parseDate
    rw [mk_data]
    simp only [englishDateParser, englishCore, mFollowedBy, mAnd, mOr,
      localeDate, hmay, hfd, Option.some_bind, Option.map_some']
    rfl

/-- C7 witness: `Aug 20, 2013` and `Aug 20 2013` both parse to midnight
of 2013-08-20. -/
theorem C7_witness :
    parseDate (String.mk
        ("Aug".data ++ ' ' :: (decimal 20 ++ ',' :: ' ' :: decimal 2013))) nw0 =
      some ⟨(2013 : Int), 7, 20⟩ ∧
    parseDate (String.mk
        ("Aug".data ++ ' ' :: (decimal 20 ++ ' ' :: decimal 2013))) nw0 =
      some ⟨(2013 : Int), 7, 20⟩ :=
  C7_full_date nw0 "Aug".data 7 20 2013 (by decide) (by decide) (by decide)
    (by decide)

/-! ## Fuel irrelevance of the recursive grammar -/

theorem mString_some_len (w : String) (input : List Char) (a : List Char)
    (r : List Char) (h : mString w input = some (a, r)) (hw : w.data ≠ []) :
    r.length < input.length := by
  unfold mString at h
  rcases hm : matchLit w.data input with _ | r2
  · rw [hm] at h
    cases h
  · rw [hm] at h
    injection h with h
    rw [Prod.mk.injEq] at h
    have hin := (matchLit_eq_some w.data input r2).1 hm
    rw [hin, List.length_append, ← h.2]
    have hpos : 0 < w.data.length := List.length_pos.mpr hw
    omega

theorem length_dropWhile_le (p : Char → Bool) (l : List Char) :
    (l.dropWhile p).length ≤ l.length := by
  induction l with
  | nil => simp
  | cons c cs ih =>
    rw [List.dropWhile_cons]
    by_cases h : p c = true
    · simp only [h, if_true, List.length_cons]
      omega
    · simp [h]

theorem mSpaces_len (input : List Char) (a : Unit) (r : List Char)
    (h : mSpaces input = some (a, r)) : r.length < input.length := by
  cases input with
  | nil => simp [mSpaces] at h
  | cons c rest =>
    simp only [mSpaces] at h
    by_cases hs : isSpaceC c = true
    · rw [if_pos hs] at h
      injection h with h
      rw [Prod.mk.injEq] at h
      rw [← h.2]
      have hd := length_dropWhile_le isSpaceC rest
      simp only [List.length_cons]
      omega
    · rw [if_neg hs] at h
      cases h

theorem integer_len (input : List Char) (v : Nat) (r : List Char)
    (h : integer input = some (v, r)) : r.length ≤ input.length := by
  unfold integer at h
  by_cases he : input.takeWhile isDigitC = []
  · rw [if_pos he] at h
    cases h
  · rw [if_neg he] at h
    injection h with h
    rw [Prod.mk.injEq] at h
    rw [← h.2]
    have hd := List.length_drop (input.takeWhile isDigitC).length input
    omega

theorem interval_or_len (input : List Char) (iv : Nat) (r : List Char)
    (h : mOr interval (mValue 1) input = some (iv, r)) :
    r.length ≤ input.length := by
  rcases hi : integer input with _ | ⟨v2, r2⟩
  · rcases hthe : mString "the" input with _ | ⟨a2, r3⟩
    · simp only [mOr, interval, mAnd, mValue, hi, hthe, Option.none_bind] at h
      injection h with h
      rw [Prod.mk.injEq] at h
      rw [← h.2]
    · simp only [mOr, interval, mAnd, mValue, hi, hthe, Option.some_bind] at h
      injection h with h
      rw [Prod.mk.injEq] at h
      rw [← h.2]
      exact le_of_lt (mString_some_len "the" input a2 r3 hthe (by decide))
  · simp only [mOr, interval, mAnd, mValue, hi] at h
    injection h with h
    rw [Prod.mk.injEq] at h
    rw [← h.2]
    exact integer_len input v2 r2 hi

theorem mOr_mString_len (w1 w2 w3 : String) (input : List Char)
    (a : List Char) (r : List Char)
    (hw1 : w1.data ≠ []) (hw2 : w2.data ≠ []) (hw3 : w3.data ≠ [])
    (h : mOr (mString w1) (mOr (mString w2) (mString w3)) input =
      some (a, r)) : r.length < input.length := by
  rcases h1 : mString w1 input with _ | ⟨a1, r1⟩
  · rcases h2 : mString w2 input with _ | ⟨a2, r2⟩
    · simp only [mOr, h1, h2] at h
      exact mString_some_len w3 input a r h hw3
    · simp only [mOr, h1, h2, Option.some.injEq, Prod.mk.injEq] at h
      rw [← h.2]
      exact mString_some_len w2 input a2 r2 h2 hw2
  · simp only [mOr, h1, Option.some.injEq, Prod.mk.injEq] at h
    rw [← h.2]
    exact mString_some_len w1 input a1 r1 h1 hw1

theorem mOr4_mString_len (w1 w2 w3 w4 : String) (input : List Char)
    (a : List Char) (r : List Char)
    (hw1 : w1.data ≠ []) (hw2 : w2.data ≠ []) (hw3 : w3.data ≠ [])
    (hw4 : w4.data ≠ [])
    (h : mOr (mString w1) (mOr (mString w2) (mOr (mString w3) (mString w4)))
      input = some (a, r)) : r.length < input.length := by
  rcases h1 : mString w1 input with _ | ⟨a1, r1⟩
  · simp only [mOr, h1] at h
    exact mOr_mString_len w2 w3 w4 input a r hw2 hw3 hw4 (by
      unfold mOr
      exact h)
  · simp only [mOr, h1, Option.some.injEq, Prod.mk.injEq] at h
    rw [← h.2]
    exact mString_some_len w1 input a1 r1 h1 hw1

theorem intervalUnit_len (input : List Char) (u : List Char) (r : List Char)
    (h : intervalUnit input = some (u, r)) : r.length ≤ input.length := by
  unfold intervalUnit at h
  rcases h1 : mOr (mString "day")
      (mOr (mString "week") (mOr (mString "month") (mString "year"))) input
    with _ | ⟨u1, r1⟩
  · rw [h1] at h
    cases h
  · rw [h1] at h
    simp only [Option.some_bind] at h
    have hr1 : r1.length < input.length :=
      mOr4_mString_len "day" "week" "month" "year" input u1 r1 (by decide)
        (by decide) (by decide) (by decide) h1
    rcases hs : mString "s" r1 with _ | ⟨a2, r2⟩
    · simp only [mMaybe, hs, Option.map_some', Option.some.injEq,
        Prod.mk.injEq] at h
      rw [← h.2]
      omega
    · simp only [mMaybe, hs, Option.map_some', Option.some.injEq,
        Prod.mk.injEq] at h
      rw [← h.2]
      have hlt := mString_some_len "s" r1 a2 r2 hs (by decide)
      omega

theorem mOr_eq_of_none {α : Type} (p q : Parser α) (input : List Char)
    (h : p input = none) : mOr p q input = q input := by
  unfold mOr
  rw [h]

theorem mOr_eq_of_some {α : Type} (p q : Parser α) (input : List Char)
    (r : α × List Char) (h : p input = some r) : mOr p q input = some r := by
  unfold mOr
  rw [h]

theorem referenceDate_congr (nw : Moment) (f g : Parser SDate)
    (inp : List Char) (h : ∀ r : List Char, r.length < inp.length → f r = g r) :
    referenceDate nw f inp = referenceDate nw g inp := by
  unfold referenceDate
  rcases hago : mString "ago" inp with _ | pa
  · have hagoAnd : mAnd (mString "ago") (mValue (startOfDay nw)) inp = none := by
      unfold mAnd
      rw [hago]
      rfl
    rw [mOr_eq_of_none _ _ _ hagoAnd, mOr_eq_of_none _ _ _ hagoAnd]
    unfold mAnd
    rcases hpre : mOr (mString "from") (mOr (mString "before")
        (mString "until")) inp with _ | ⟨w, r5⟩
    · simp only [hpre, Option.none_bind]
    · simp only [hpre, Option.some_bind]
      have hr5 : r5.length < inp.length :=
        mOr_mString_len "from" "before" "until" inp w r5 (by decide)
          (by decide) (by decide) hpre
      rcases hsp : mSpaces r5 with _ | ⟨u0, r6⟩
      · simp only [hsp, Option.none_bind]
      · simp only [hsp, Option.some_bind]
        have hr6 : r6.length < r5.length := mSpaces_len r5 u0 r6 hsp
        rw [h r6 (by omega)]
  · have hagoAnd : mAnd (mString "ago") (mValue (startOfDay nw)) inp =
        some (startOfDay nw, pa.2) := by
      unfold mAnd mValue
      rw [hago, Option.some_bind]
    rw [mOr_eq_of_some _ _ _ _ hagoAnd, mOr_eq_of_some _ _ _ _ hagoAnd]

theorem relativeDate_congr (nw : Moment) (f g : Parser SDate)
    (input : List Char)
    (h : ∀ r : List Char, r.length < input.length → f r = g r) :
    relativeDate nw f input = relativeDate nw g input := by
  unfold relativeDate
  rcases h1 : mOr interval (mValue 1) input with _ | ⟨iv, r1⟩
  · simp only [h1, Option.none_bind]
  · simp only [h1, Option.some_bind]
    have hr1 : r1.length ≤ input.length := interval_or_len input iv r1 h1
    obtain ⟨o2, h2⟩ := mMaybe_mSpaces_eq r1
    simp only [h2, Option.some_bind]
    have hr2 : (r1.dropWhile isSpaceC).length ≤ r1.length :=
      length_dropWhile_le isSpaceC r1
    rcases h3 : intervalUnit (r1.dropWhile isSpaceC) with _ | ⟨u, r3⟩
    · simp only [h3, Option.none_bind]
    · simp only [h3, Option.some_bind]
      have hr3 : r3.length ≤ (r1.dropWhile isSpaceC).length :=
        intervalUnit_len _ u r3 h3
      rcases h4 : mSpaces r3 with _ | ⟨u0, r4⟩
      · simp only [h4, Option.none_bind]
      · simp only [h4, Option.some_bind]
        have hr4 : r4.length < r3.length := mSpaces_len r3 u0 r4 h4
        rw [referenceDate_congr nw f g r4 fun r hr => h r (by omega)]

theorem englishCore_congr (nw : Moment) (f g : Parser SDate)
    (input : List Char)
    (h : ∀ r : List Char, r.length < input.length → f r = g r) :
    englishCore nw f input = englishCore nw g input := by
  unfold englishCore mFollowedBy mAnd
  obtain ⟨o1, ho1⟩ := mMaybe_mSpaces_eq input
  simp only [ho1, Option.some_bind]
  have hd : (input.dropWhile isSpaceC).length ≤ input.length :=
    length_dropWhile_le isSpaceC input
  have hrel : relativeDate nw f (input.dropWhile isSpaceC) =
      relativeDate nw g (input.dropWhile isSpaceC) :=
    relativeDate_congr nw f g _ fun r hr => h r (by omega)
  simp only [mOr, hrel]

theorem english_fuel (nw : Moment) : ∀ n1 n2 input,
    input.length < n1 → input.length < n2 →
    englishDateParser nw n1 input = englishDateParser nw n2 input := by
  intro n1
  induction n1 with
  | zero => intro n2 input h1 h2; omega
  | succ m1 ih =>
    intro n2 input h1 h2
    cases n2 with
    | zero => omega
    | succ m2 =>
      show englishCore nw (englishDateParser nw m1) input =
        englishCore nw (englishDateParser nw m2) input
      apply englishCore_congr
      intro r hr
      exact ih m2 r (by omega) (by omega)

theorem english_rest_nil (nw : Moment) (n : Nat) (input : List Char)
    (v : SDate) (r : List Char)
    (h : englishDateParser nw n input = some (v, r)) : r = [] := by
  cases n with
  | zero => cases h
  | succ m =>
    have hc : englishCore nw (englishDateParser nw m) input = some (v, r) := h
    unfold englishCore mFollowedBy mAnd at hc
    rcases h1 : mMaybe mSpaces input with _ | ⟨o1, r1⟩
    · rw [h1] at hc
      cases hc
    · rw [h1] at hc
      simp only [Option.some_bind] at hc
      rcases h2 : mOr (localeDate nw)
          (mOr (relativeDate nw (englishDateParser nw m))
            (mOr (nowP nw) (yesterdayP nw))) r1 with _ | ⟨v2, r2⟩
      · rw [h2] at hc
        cases hc
      · rw [h2] at hc
        simp only [Option.some_bind] at hc
        rcases h3 : mMaybe mSpaces r2 with _ | ⟨o3, r3⟩
        · rw [h3] at hc
          cases hc
        · rw [h3] at hc
          simp only [Option.map_some', Option.some_bind] at hc
          rcases h4 : mEof r3 with _ | ⟨u4, r4⟩
          · rw [h4] at hc
            cases hc
          · rw [h4] at hc
            simp only [Option.map_some', Option.some.injEq,
              Prod.mk.injEq] at hc
            unfold mEof at h4
            by_cases he : r3 = []
            · rw [if_pos he] at h4
              injection h4 with h4
              rw [Prod.mk.injEq] at h4
              rw [← hc.2, ← h4.2, he]
            · rw [if_neg he] at h4
              cases h4

/-! ## Claim C4: `from`, `before` and `until` are interchangeable -/

theorem mString_append (w : String) (rest : List Char) :
    mString w (w.data ++ rest) = some (w.data, rest) := by
  unfold mString
  rw [matchLit_append]
  rfl

theorem mString_ne_head_append (w : String) (w0 : Char) (ws : List Char)
    (hw : w.data = w0 :: ws) (v : String) (v0 : Char) (vs : List Char)
    (hv : v.data = v0 :: vs) (hne : ¬(w0 = v0)) (rest : List Char) :
    mString w (v.data ++ rest) = none := by
  rw [hv]
  simp only [List.cons_append]
  exact mString_head_ne w w0 ws hw v0 _ hne

theorem mString_s_cons (S : List Char) :
    mString "s" ('s' :: S) = some ("s".data, S) := mString_append "s" S

theorem intervalUnit_eval_nopl (u : String)
    (hu : u ∈ (["day", "week", "month", "year"] : List String)) (S : List Char)
    (hS : mString "s" S = none) :
    intervalUnit (u.data ++ S) = some (u.data, S) := by
  simp only [List.mem_cons, List.not_mem_nil, or_false] at hu
  unfold intervalUnit
  rcases hu with rfl | rfl | rfl | rfl
  · rw [mOr_eq_of_some _ _ _ _ (mString_append "day" S), Option.some_bind]
    simp only [mMaybe_of_none _ _ hS, Option.map_some']
  · rw [mOr_eq_of_none _ _ _
        (mString_ne_head_append "day" 'd' _ rfl "week" 'w' _ rfl (by decide) S),
      mOr_eq_of_some _ _ _ _ (mString_append "week" S), Option.some_bind]
    simp only [mMaybe_of_none _ _ hS, Option.map_some']
  · rw [mOr_eq_of_none _ _ _
        (mString_ne_head_append "day" 'd' _ rfl "month" 'm' _ rfl (by decide) S),
      mOr_eq_of_none _ _ _
        (mString_ne_head_append "week" 'w' _ rfl "month" 'm' _ rfl (by decide) S),
      mOr_eq_of_some _ _ _ _ (mString_append "month" S), Option.some_bind]
    simp only [mMaybe_of_none _ _ hS, Option.map_some']
  · rw [mOr_eq_of_none _ _ _
        (mString_ne_head_append "day" 'd' _ rfl "year" 'y' _ rfl (by decide) S),
      mOr_eq_of_none _ _ _
        (mString_ne_head_append "week" 'w' _ rfl "year" 'y' _ rfl (by decide) S),
      mOr_eq_of_none _ _ _
        (mString_ne_head_append "month" 'm' _ rfl "year" 'y' _ rfl (by decide) S),
      mString_append "year" S, Option.some_bind]
    simp only [mMaybe_of_none _ _ hS, Option.map_some']

theorem intervalUnit_eval_pl (u : String)
    (hu : u ∈ (["day", "week", "month", "year"] : List String)) (S : List Char) :
    intervalUnit (u.data ++ 's' :: S) = some (u.data, S) := by
  simp only [List.mem_cons, List.not_mem_nil, or_false] at hu
  unfold intervalUnit
  rcases hu with rfl | rfl | rfl | rfl
  · rw [mOr_eq_of_some _ _ _ _ (mString_append "day" ('s' :: S)),
      Option.some_bind]
    simp only [mMaybe_of_some _ _ _ _ (mString_s_cons S), Option.map_some']
  · rw [mOr_eq_of_none _ _ _
        (mString_ne_head_append "day" 'd' _ rfl "week" 'w' _ rfl (by decide) _),
      mOr_eq_of_some _ _ _ _ (mString_append "week" ('s' :: S)),
      Option.some_bind]
    simp only [mMaybe_of_some _ _ _ _ (mString_s_cons S), Option.map_some']
  · rw [mOr_eq_of_none _ _ _
        (mString_ne_head_append "day" 'd' _ rfl "month" 'm' _ rfl (by decide) _),
      mOr_eq_of_none _ _ _
        (mString_ne_head_append "week" 'w' _ rfl "month" 'm' _ rfl (by decide) _),
      mOr_eq_of_some _ _ _ _ (mString_append "month" ('s' :: S)),
      Option.some_bind]
    simp only [mMaybe_of_some _ _ _ _ (mString_s_cons S), Option.map_some']
  · rw [mOr_eq_of_none _ _ _
        (mString_ne_head_append "day" 'd' _ rfl "year" 'y' _ rfl (by decide) _),
      mOr_eq_of_none _ _ _
        (mString_ne_head_append "week" 'w' _ rfl "year" 'y' _ rfl (by decide) _),
      mOr_eq_of_none _ _ _
        (mString_ne_head_append "month" 'm' _ rfl "year" 'y' _ rfl (by decide) _),
      mString_append "year" ('s' :: S), Option.some_bind]
    simp only [mMaybe_of_some _ _ _ _ (mString_s_cons S), Option.map_some']

theorem referenceDate_prep (nw : Moment) (eng : Parser SDate) (prep : String)
    (hp : prep ∈ (["from", "before", "until"] : List String)) (rs : List Char)
    (hrs : match rs with | [] => True | c :: _ => isSpaceC c = false) :
    referenceDate nw eng (prep.data ++ ' ' :: rs) = eng rs := by
  have hsp := mSpaces_one_nonspace rs hrs
  simp only [List.mem_cons, List.not_mem_nil, or_false] at hp
  unfold referenceDate
  rcases hp with rfl | rfl | rfl
  · have hago : mAnd (mString "ago") (mValue (startOfDay nw))
        ("from".data ++ ' ' :: rs) = none := by
      unfold mAnd
      rw [mString_ne_head_append "ago" 'a' _ rfl "from" 'f' _ rfl (by decide) _]
      rfl
    rw [mOr_eq_of_none _ _ _ hago]
    unfold mAnd
    rw [mOr_eq_of_some _ _ _ _ (mString_append "from" (' ' :: rs)),
      Option.some_bind]
    show (mSpaces (' ' :: rs)).bind (fun a => eng a.2) = eng rs
    rw [hsp, Option.some_bind]
  · have hago : mAnd (mString "ago") (mValue (startOfDay nw))
        ("before".data ++ ' ' :: rs) = none := by
      unfold mAnd
      rw [mString_ne_head_append "ago" 'a' _ rfl "before" 'b' _ rfl
        (by decide) _]
      rfl
    rw [mOr_eq_of_none _ _ _ hago]
    unfold mAnd
    rw [mOr_eq_of_none _ _ _
        (mString_ne_head_append "from" 'f' _ rfl "before" 'b' _ rfl
          (by decide) _),
      mOr_eq_of_some _ _ _ _ (mString_append "before" (' ' :: rs)),
      Option.some_bind]
    show (mSpaces (' ' :: rs)).bind (fun a => eng a.2) = eng rs
    rw [hsp, Option.some_bind]
  · have hago : mAnd (mString "ago") (mValue (startOfDay nw))
        ("until".data ++ ' ' :: rs) = none := by
      unfold mAnd
      rw [mString_ne_head_append "ago" 'a' _ rfl "until" 'u' _ rfl
        (by decide) _]
      rfl
    rw [mOr_eq_of_none _ _ _ hago]
    unfold mAnd
    rw [mOr_eq_of_none _ _ _
        (mString_ne_head_append "from" 'f' _ rfl "until" 'u' _ rfl
          (by decide) _),
      mOr_eq_of_none _ _ _
        (mString_ne_head_append "before" 'b' _ rfl "until" 'u' _ rfl
          (by decide) _),
      mString_append "until" (' ' :: rs), Option.some_bind]
    show (mSpaces (' ' :: rs)).bind (fun a => eng a.2) = eng rs
    rw [hsp, Option.some_bind]

theorem unit_head (u : String)
    (hu : u ∈ (["day", "week", "month", "year"] : List String)) :
    ∃ c0 cs, u.data = c0 :: cs ∧ isSpaceC c0 = false := by
  simp only [List.mem_cons, List.not_mem_nil, or_false] at hu
  rcases hu with rfl | rfl | rfl | rfl <;> exact ⟨_, _, rfl, by decide⟩

theorem prep_head (prep : String)
    (hp : prep ∈ (["from", "before", "until"] : List String)) :
    ∃ p0 ps, prep.data = p0 :: ps ∧ isSpaceC p0 = false := by
  simp only [List.mem_cons, List.not_mem_nil, or_false] at hp
  rcases hp with rfl | rfl | rfl <;> exact ⟨_, _, rfl, by decide⟩

theorem nowP_digit_start (nw : Moment) (c : Char) (rest : List Char)
    (h : isDigitC c = true) : nowP nw (c :: rest) = none := by
  have h1 := mString_head_ne "today" 't' _ rfl c rest
    (ne_digit_sym c 't' h (by decide))
  have h2 := mString_head_ne "now" 'n' _ rfl c rest
    (ne_digit_sym c 'n' h (by decide))
  unfold nowP mAnd
  rw [mOr_eq_of_none _ _ _ h1, h2]
  rfl

theorem yesterdayP_digit_start (nw : Moment) (c : Char) (rest : List Char)
    (h : isDigitC c = true) : yesterdayP nw (c :: rest) = none := by
  have h1 := mString_head_ne "yesterday" 'y' _ rfl c rest
    (ne_digit_sym c 'y' h (by decide))
  unfold yesterdayP mAnd
  rw [h1]
  rfl

theorem relativeDate_prep (nw : Moment) (eng : Parser SDate) (N : Nat)
    (u pl : String) (hu : u ∈ (["day", "week", "month", "year"] : List String))
    (hpl : pl = "" ∨ pl = "s") (prep : String)
    (hp : prep ∈ (["from", "before", "until"] : List String)) (rs : List Char)
    (hrs : match rs with | [] => True | c :: _ => isSpaceC c = false) :
    relativeDate nw eng
      (decimal N ++ ' ' ::
        (u.data ++ (pl.data ++ (' ' :: (prep.data ++ ' ' :: rs))))) =
      (eng rs).map (fun vr => (subtractUnit u.data N vr.1, vr.2)) := by
  obtain ⟨c0, cs, hud, hc0⟩ := unit_head u hu
  obtain ⟨p0, ps, hpd, hp0⟩ := prep_head prep hp
  have hmsp : mSpaces (' ' :: (prep.data ++ ' ' :: rs)) =
      some ((), prep.data ++ ' ' :: rs) := by
    rw [hpd]
    simp only [List.cons_append]
    exact mSpaces_cons p0 _ hp0
  have href := referenceDate_prep nw eng prep hp rs hrs
  rcases hpl with rfl | rfl
  · have hR : (u.data ++ (("" : String).data ++
        (' ' :: (prep.data ++ ' ' :: rs)))) =
        u.data ++ (' ' :: (prep.data ++ ' ' :: rs)) := by
      rw [show (("" : String).data : List Char) = [] from rfl,
        List.nil_append]
    rw [hR]
    have hInt : interval
        (decimal N ++ ' ' :: (u.data ++ (' ' :: (prep.data ++ ' ' :: rs)))) =
        some (N, ' ' :: (u.data ++ (' ' :: (prep.data ++ ' ' :: rs)))) :=
      mOr_eq_of_some _ _ _ _ (integer_decimal_append N _)
    have hmsp1 : mSpaces
        (' ' :: (u.data ++ (' ' :: (prep.data ++ ' ' :: rs)))) =
        some ((), u.data ++ (' ' :: (prep.data ++ ' ' :: rs))) := by
      rw [hud]
      simp only [List.cons_append]
      exact mSpaces_cons c0 _ hc0
    have hIU : intervalUnit (u.data ++ (' ' :: (prep.data ++ ' ' :: rs))) =
        some (u.data, ' ' :: (prep.data ++ ' ' :: rs)) :=
      intervalUnit_eval_nopl u hu _
        (mString_head_ne "s" 's' [] rfl ' ' _ (by decide))
    unfold relativeDate
    rw [mOr_eq_of_some _ _ _ _ hInt, Option.some_bind]
    simp only [mMaybe_of_some _ _ _ _ hmsp1, Option.some_bind, hIU, hmsp,
      href]
  · have hR : (u.data ++ (("s" : String).data ++
        (' ' :: (prep.data ++ ' ' :: rs)))) =
        u.data ++ 's' :: (' ' :: (prep.data ++ ' ' :: rs)) := by
      rw [show (("s" : String).data : List Char) = ['s'] from rfl,
        List.singleton_append]
    rw [hR]
    have hInt : interval
        (decimal N ++ ' ' ::
          (u.data ++ 's' :: (' ' :: (prep.data ++ ' ' :: rs)))) =
        some (N, ' ' ::
          (u.data ++ 's' :: (' ' :: (prep.data ++ ' ' :: rs)))) :=
      mOr_eq_of_some _ _ _ _ (integer_decimal_append N _)
    have hmsp1 : mSpaces
        (' ' :: (u.data ++ 's' :: (' ' :: (prep.data ++ ' ' :: rs)))) =
        some ((), u.data ++ 's' :: (' ' :: (prep.data ++ ' ' :: rs))) := by
      rw [hud]
      simp only [List.cons_append]
      exact mSpaces_cons c0 _ hc0
    have hIU : intervalUnit
        (u.data ++ 's' :: (' ' :: (prep.data ++ ' ' :: rs))) =
        some (u.data, ' ' :: (prep.data ++ ' ' :: rs)) :=
      intervalUnit_eval_pl u hu _
    unfold relativeDate
    rw [mOr_eq_of_some _ _ _ _ hInt, Option.some_bind]
    simp only [mMaybe_of_some _ _ _ _ hmsp1, Option.some_bind, hIU, hmsp,
      href]

/-- The relative-date phrase `N <unit><plural> <preposition> <reference>`
as a character list. -/
def relPhrase (N : Nat) (u pl prep : String) (rs : List Char) : List Char :=
  decimal N ++ ' ' :: (u.data ++ (pl.data ++ (' ' :: (prep.data ++ ' ' :: rs))))

theorem relPhrase_eval (nw : Moment) (N : Nat) (u pl prep : String)
    (hu : u ∈ (["day", "week", "month", "year"] : List String))
    (hpl : pl = "" ∨ pl = "s")
    (hp : prep ∈ (["from", "before", "until"] : List String))
    (rs : List Char)
    (hrs : match rs with | [] => True | c :: _ => isSpaceC c = false) :
    parseDate (String.mk (relPhrase N u pl prep rs)) nw =
      (parseDate (String.mk rs) nw).map (fun r => subtractUnit u.data N r) := by
  obtain ⟨d0, ds, hdec⟩ : ∃ d0 ds, decimal N = d0 :: ds := by
    rcases h : decimal N with _ | ⟨a, b⟩
    · exact absurd h (decimal_ne_nil N)
    · exact ⟨a, b, rfl⟩
  have hd0 : isDigitC d0 = true := decimal_head_digit N d0 ds hdec
  have hcons : relPhrase N u pl prep rs =
      d0 :: (ds ++ ' ' ::
        (u.data ++ (pl.data ++ (' ' :: (prep.data ++ ' ' :: rs))))) := by
    unfold relPhrase
    rw [hdec]
    simp only [List.cons_append]
  have hmay : mMaybe mSpaces (relPhrase N u pl prep rs) =
      some (none, relPhrase N u pl prep rs) := by
    rw [hcons]
    exact mMaybe_mSpaces_nospace d0 _ (digit_not_space d0 hd0)
  have hloc : localeDate nw (relPhrase N u pl prep rs) = none := by
    rw [hcons]
    exact localeDate_digit_start nw d0 _ hd0
  have hnow : nowP nw (relPhrase N u pl prep rs) = none := by
    rw [hcons]
    exact nowP_digit_start nw d0 _ hd0
  have hyes : yesterdayP nw (relPhrase N u pl prep rs) = none := by
    rw [hcons]
    exact yesterdayP_digit_start nw d0 _ hd0
  have hlen : rs.length < (relPhrase N u pl prep rs).length := by
    unfold relPhrase
    simp only [List.length_append, List.length_cons]
    omega
  have hrel : relativeDate nw
      (englishDateParser nw (relPhrase N u pl prep rs).length)
      (relPhrase N u pl prep rs) =
      (englishDateParser nw (relPhrase N u pl prep rs).length rs).map
        (fun vr => (subtractUnit u.data N vr.1, vr.2)) := by
    conv_lhs => rw [show relPhrase N u pl prep rs =
      decimal N ++ ' ' ::
        (u.data ++ (pl.data ++ (' ' :: (prep.data ++ ' ' :: rs))))
      from rfl]
    exact relativeDate_prep nw _ N u pl hu hpl prep hp rs hrs
  have hfuel : englishDateParser nw (relPhrase N u pl prep rs).length rs =
      englishDateParser nw (rs.length + 1) rs :=
    english_fuel nw _ _ rs hlen (by omega)
  rcases hres : englishDateParser nw (rs.length + 1) rs with _ | ⟨v, r2⟩
  · have hrel2 : relativeDate nw
        (englishDateParser nw (relPhrase N u pl prep rs).length)
        (relPhrase N u pl prep rs) = none := by
      rw [hrel, hfuel, hres]
      rfl
    unfold parseDate
    rw [mk_data, mk_data, hres]
    simp only [englishDateParser, englishCore, mFollowedBy, mAnd, mOr, hmay,
      hloc, hrel2, hnow, hyes, Option.some_bind, Option.none_bind,
      Option.map_none']
  · have hr2 : r2 = [] := english_rest_nil nw _ rs v r2 hres
    subst hr2
    have hrel2 : relativeDate nw
        (englishDateParser nw (relPhrase N u pl prep rs).length)
        (relPhrase N u pl prep rs) =
        some (subtractUnit u.data N v, []) := by
      rw [hrel, hfuel, hres]
      rfl
    have ht1 : mMaybe mSpaces ([] : List Char) = some (none, []) := rfl
    have ht2 : mEof ([] : List Char) = some ((), []) := rfl
    unfold parseDate
    rw [mk_data, mk_data, hres]
    simp only [englishDateParser, englishCore, mFollowedBy, mAnd, mOr, hmay,
      hloc, hrel2, Option.some_bind, Option.map_some', ht1, ht2]

/-- C4: the three preposition tokens are interchangeable in a relative
phrase `N unit <prep> R`, and the interval is always subtracted from
(never added to) the date the reference expression R resolves to, also
for `from`. -/
theorem C4_prepositions_equivalent (nw : Moment) (N : Nat) (u pl : String)
    (hu : u ∈ (["day", "week", "month", "year"] : List String))
    (hpl : pl = "" ∨ pl = "s") (rs : List Char)
    (hrs : match rs with | [] => True | c :: _ => isSpaceC c = false) :
    parseDate (String.mk (relPhrase N u pl "from" rs)) nw =
      parseDate (String.mk (relPhrase N u pl "before" rs)) nw ∧
    parseDate (String.mk (relPhrase N u pl "until" rs)) nw =
      parseDate (String.mk (relPhrase N u pl "before" rs)) nw ∧
    parseDate (String.mk (relPhrase N u pl "before" rs)) nw =
      (parseDate (String.mk rs) nw).map (fun r => subtractUnit u.data N r) := by
  have hf := relPhrase_eval nw N u pl "from" hu hpl (by decide) rs hrs
  have hb := relPhrase_eval nw N u pl "before" hu hpl (by decide) rs hrs
  have hu2 := relPhrase_eval nw N u pl "until" hu hpl (by decide) rs hrs
  exact ⟨hf.trans hb.symm, hu2.trans hb.symm, hb⟩

/-- C4 witness: `3 days from yesterday`, `3 days before yesterday` and
`3 days until yesterday` agree, and subtract three days from yesterday. -/
theorem C4_witness :
    parseDate (String.mk (relPhrase 3 "day" "s" "from" "yesterday".data)) nw0 =
      parseDate (String.mk
        (relPhrase 3 "day" "s" "before" "yesterday".data)) nw0 ∧
    parseDate (String.mk (relPhrase 3 "day" "s" "until" "yesterday".data)) nw0 =
      parseDate (String.mk
        (relPhrase 3 "day" "s" "before" "yesterday".data)) nw0 ∧
    parseDate (String.mk (relPhrase 3 "day" "s" "before" "yesterday".data)) nw0 =
      (parseDate (String.mk "yesterday".data) nw0).map
        (fun r => subtractUnit "day".data 3 r) :=
  C4_prepositions_equivalent nw0 3 "day" "s" (by decide) (Or.inr rfl)
    "yesterday".data (by decide)
